import Mathlib

/-!
Verification of the droidplug (Android) backend of btleplug: a shallow
embedding of `src/droidplug/peripheral.rs` and `src/droidplug/jni/objects.rs`.

Conventions of the embedding:
* JNI byte values (`u8`) are `Nat` values below 256; `jint` (`i32`) values are `Int`.
* Rust panics (out-of-bounds indexing, reversed slice bounds) are modelled by
  `Option`/`none` results.
* Java objects reached through JNI are modelled by structures carrying exactly
  the fields the Rust code reads through the cached method ids.
* The `HashMap<u16, Vec<u8>>` of manufacturer data is modelled as an
  association list with unique keys; `entry(..).and_modify(..).or_insert(..)`
  becomes `mfrInsert`.
-/

namespace Droidplug

/-- UUID values; only equality of UUIDs matters to the embedded code. -/
abbrev Uuid := Nat

/-- Bluetooth device address; only equality matters to the embedded code. -/
abbrev BDAddr := Nat

/-- Embedding of btleplug's `Error` enum, restricted to the variants the
droidplug backend produces. `JavaException` stands for the unclassified
bridge fault propagated verbatim (a `jni::errors::Error::JavaException`
converted into a btleplug error). -/
inductive Error where
  | DeviceNotFound
  | NotConnected
  | PermissionDenied
  | UnexpectedCallback
  | UnexpectedCharacteristic
  | NoSuchCharacteristic
  | RuntimeError (msg : String)
  | Other (msg : String)
  | JavaException
deriving DecidableEq, Repr

/-! ## Cross-runtime bridge: exception classification (`map_future_exception`) -/

/-- Host-side exception classes the classifier tests a cause against via
`JNIEnv::is_instance_of`. -/
inductive HostExceptionClass where
  | notConnectedException
  | permissionDeniedException
  | unexpectedCallbackException
  | unexpectedCharacteristicException
  | noSuchCharacteristicException
  | runtimeException
deriving DecidableEq, Repr

/-- The cause object attached to a bridged `FutureException`: what
`is_instance_of` answers for each tested class, plus its `getMessage` text. -/
structure JCause where
  isInstanceOf : HostExceptionClass → Bool
  message : String

/-- Result of `map_future_exception`: either a classified domain error, or the
original throwable is re-thrown to the JVM (the Rust side then returns
`jni::errors::Error::JavaException`). -/
inductive MapOutcome where
  | classified (e : Error)
  | rethrown
deriving DecidableEq, Repr

/-- Embedding of `map_future_exception` (peripheral.rs lines 49-123): the
chain of `is_instance_of` tests on the exception's cause. -/
def map_future_exception (c : JCause) : MapOutcome :=
  if c.isInstanceOf .notConnectedException then .classified .NotConnected
  else if c.isInstanceOf .permissionDeniedException then .classified .PermissionDenied
  else if c.isInstanceOf .unexpectedCallbackException then .classified .UnexpectedCallback
  else if c.isInstanceOf .unexpectedCharacteristicException then .classified .UnexpectedCharacteristic
  else if c.isInstanceOf .noSuchCharacteristicException then .classified .NoSuchCharacteristic
  else if c.isInstanceOf .runtimeException then .classified (.RuntimeError c.message)
  else .rethrown

/-- Modelled from the spec: the fixed, ordered list of host exception
categories and their one-to-one domain errors (section 4.3 of the spec). -/
def hostExceptionOrder : List (HostExceptionClass × Error) :=
  [(.notConnectedException, .NotConnected),
   (.permissionDeniedException, .PermissionDenied),
   (.unexpectedCallbackException, .UnexpectedCallback),
   (.unexpectedCharacteristicException, .UnexpectedCharacteristic),
   (.noSuchCharacteristicException, .NoSuchCharacteristic)]

/-- Modelled from the spec: classify a cause by the first matching category of
`hostExceptionOrder`; a generic runtime fault not in the list becomes
`RuntimeError` with the cause's message; anything else is re-raised. -/
def classifyCauseSpec (c : JCause) : MapOutcome :=
  match hostExceptionOrder.find? (fun ce => c.isInstanceOf ce.1) with
  | some ce => .classified ce.2
  | none =>
    if c.isInstanceOf .runtimeException then .classified (.RuntimeError c.message)
    else .rethrown

/-! ## Advertising data decoder (objects.rs, `TryFrom<JScanResult>`) -/

/-- Manufacturer-data map (`HashMap<u16, Vec<u8>>`) as an association list
with unique keys. -/
abbrev MfrMap := List (Nat × List Nat)

/-- Lookup of a company id in the manufacturer-data map. -/
def mfrLookup : MfrMap → Nat → Option (List Nat)
  | [], _ => none
  | (k, v) :: rest, c => if k = c then some v else mfrLookup rest c

/-- Embedding of `manufacturer_data.entry(company_id).and_modify(|v|
v.extend_from_slice(&data)).or_insert(data)`: extend the payload of an
existing key, otherwise insert the key. -/
def mfrInsert : MfrMap → Nat → List Nat → MfrMap
  | [], c, d => [(c, d)]
  | (k, v) :: rest, c, d =>
    if k = c then (k, v ++ d) :: rest else (k, v) :: mfrInsert rest c d

/-- Rust slice `bs[start..stop]`: panics (here `none`) unless
`start <= stop <= bs.length`. -/
def listSlice (bs : List Nat) (start stop : Nat) : Option (List Nat) :=
  if start ≤ stop ∧ stop ≤ bs.length then some ((bs.drop start).take (stop - start))
  else none

/-- Embedding of the AD-structure `while` loop of objects.rs lines 694-723.
The first argument is fuel; the loop advances `index` by at least 2 per
iteration, so fuel `bs.length + 1` (as supplied by `decodeAdBytes`) can never
run out. `none` models a Rust panic: `raw_bytes[index + 2]` or
`raw_bytes[index + 3]` out of bounds, or a reversed slice range, all of which
happen exactly on a type-0xFF record whose declared length is below 3. -/
def adLoopF : Nat → List Nat → Nat → MfrMap → Option MfrMap
  | 0, _, _, _ => none
  | fuel + 1, bs, index, m =>
    if bs.length ≤ index then some m
    else
      let length := bs.getD index 0
      if length = 0 then some m
      else if bs.length ≤ index + length then some m
      else
        match bs[index + 1]? with
        | none => none
        | some adType =>
          if adType = 255 then
            match bs[index + 2]?, bs[index + 3]? with
            | some b2, some b3 =>
              let company := (b3 <<< 8) ||| b2
              if index + 1 + length ≤ bs.length then
                match listSlice bs (index + 4) (index + 1 + length) with
                | none => none
                | some data => adLoopF fuel bs (index + length + 1) (mfrInsert m company data)
              else adLoopF fuel bs (index + length + 1) m
            | _, _ => none
          else adLoopF fuel bs (index + length + 1) m

/-- Manufacturer-data decoding of a raw advertisement buffer: the AD loop
started at index 0 with an empty map. -/
def decodeAdBytes (bs : List Nat) : Option MfrMap :=
  adLoopF (bs.length + 1) bs 0 []

/-- Ghost companion of `adLoopF`: the `(company id, payload)` records the loop
encounters, in encounter order, with the identical control flow (including the
panic cases). Used to state what the accumulated map contains. -/
def adRecF : Nat → List Nat → Nat → Option (List (Nat × List Nat))
  | 0, _, _ => none
  | fuel + 1, bs, index =>
    if bs.length ≤ index then some []
    else
      let length := bs.getD index 0
      if length = 0 then some []
      else if bs.length ≤ index + length then some []
      else
        match bs[index + 1]? with
        | none => none
        | some adType =>
          if adType = 255 then
            match bs[index + 2]?, bs[index + 3]? with
            | some b2, some b3 =>
              if index + 1 + length ≤ bs.length then
                match listSlice bs (index + 4) (index + 1 + length) with
                | none => none
                | some data =>
                  (adRecF fuel bs (index + length + 1)).map
                    (fun rs => ((b3 <<< 8) ||| b2, data) :: rs)
              else adRecF fuel bs (index + length + 1)
            | _, _ => none
          else adRecF fuel bs (index + length + 1)

/-- Encounter-order manufacturer records of a raw advertisement buffer. -/
def adRecordsBytes (bs : List Nat) : Option (List (Nat × List Nat)) :=
  adRecF (bs.length + 1) bs 0

/-- Concatenation of two optional payloads, where `none` means "no entry". -/
def mfrCombine : Option (List Nat) → Option (List Nat) → Option (List Nat)
  | none, o => o
  | some v, none => some v
  | some v, some l => some (v ++ l)

/-- Payload a record list contributes to a given company id: the concatenation
of the payloads of its records for that id, in encounter order; `none` when it
has no record for that id. -/
def recContribution : List (Nat × List Nat) → Nat → Option (List Nat)
  | [], _ => none
  | (k, d) :: rest, c =>
    if k = c then mfrCombine (some d) (recContribution rest c)
    else recContribution rest c

/-! ## Tx power and device name decoding (objects.rs, `TryFrom<JScanResult>`) -/

/-- Two's-complement narrowing of an `i32` to an `i16` (Rust `as i16`). -/
def toI16 (v : Int) : Int :=
  if 32768 ≤ v % 65536 then v % 65536 - 65536 else v % 65536

/-- Embedding of the tx-power decoding (objects.rs lines 677-683): the literal
127 (`TX_POWER_NOT_PRESENT`) decodes to `none`, every other raw value to
`some (value as i16)`. -/
def decodeTxPowerLevel (txPowerLevel : Int) : Option Int :=
  if txPowerLevel = 127 then none else some (toI16 txPowerLevel)

/-- Decode one UTF-8 scalar value from the front of a byte list, returning the
scalar and the remaining bytes; `none` on an invalid or truncated sequence.
Follows the standard UTF-8 table (overlongs, surrogates and values above
U+10FFFF are invalid), which is the validity notion used by Rust's `str`. -/
def utf8DecodeOne : List Nat → Option (Nat × List Nat)
  | [] => none
  | b :: rest =>
    if b ≤ 0x7F then some (b, rest)
    else if 0xC2 ≤ b ∧ b ≤ 0xDF then
      match rest with
      | b1 :: r =>
        if 0x80 ≤ b1 ∧ b1 ≤ 0xBF then some ((b - 0xC0) * 64 + (b1 - 0x80), r)
        else none
      | [] => none
    else if 0xE0 ≤ b ∧ b ≤ 0xEF then
      match rest with
      | b1 :: b2 :: r =>
        if (if b = 0xE0 then 0xA0 ≤ b1 ∧ b1 ≤ 0xBF
            else if b = 0xED then 0x80 ≤ b1 ∧ b1 ≤ 0x9F
            else 0x80 ≤ b1 ∧ b1 ≤ 0xBF) ∧ 0x80 ≤ b2 ∧ b2 ≤ 0xBF then
          some ((b - 0xE0) * 4096 + (b1 - 0x80) * 64 + (b2 - 0x80), r)
        else none
      | _ => none
    else if 0xF0 ≤ b ∧ b ≤ 0xF4 then
      match rest with
      | b1 :: b2 :: b3 :: r =>
        if (if b = 0xF0 then 0x90 ≤ b1 ∧ b1 ≤ 0xBF
            else if b = 0xF4 then 0x80 ≤ b1 ∧ b1 ≤ 0x8F
            else 0x80 ≤ b1 ∧ b1 ≤ 0xBF) ∧ 0x80 ≤ b2 ∧ b2 ≤ 0xBF ∧ 0x80 ≤ b3 ∧ b3 ≤ 0xBF then
          some ((b - 0xF0) * 262144 + (b1 - 0x80) * 4096 + (b2 - 0x80) * 64 + (b3 - 0x80), r)
        else none
      | _ => none
    else none

/-- Strict UTF-8 decoding of a whole byte list into scalar values (the model
of `std::str::from_utf8`); fuel is the byte count, which every decoded scalar
reduces by at least one. -/
def utf8StrictF : Nat → List Nat → Option (List Nat)
  | _, [] => some []
  | 0, _ :: _ => none
  | fuel + 1, bs =>
    match utf8DecodeOne bs with
    | none => none
    | some (cp, rest) => (utf8StrictF fuel rest).map (fun cps => cp :: cps)

/-- Strict UTF-8 decoding of a byte list into scalar values. -/
def utf8Strict (bs : List Nat) : Option (List Nat) :=
  utf8StrictF bs.length bs

/-- Lossy UTF-8 decoding (the model of `String::from_utf8_lossy`): an invalid
byte produces the replacement scalar U+FFFD and decoding resumes at the next
byte. The exact grouping of invalid bytes into replacement scalars differs
between substitution policies, but the non-replacement scalars produced agree
with Rust's, and the embedded device-name decoder filters every replacement
scalar out anyway. -/
def utf8LossyF : Nat → List Nat → List Nat
  | _, [] => []
  | 0, _ :: _ => []
  | fuel + 1, b :: bs =>
    match utf8DecodeOne (b :: bs) with
    | some (cp, rest) => cp :: utf8LossyF fuel rest
    | none => 0xFFFD :: utf8LossyF fuel bs

/-- Lossy UTF-8 decoding of a byte list into scalar values. -/
def utf8Lossy (bs : List Nat) : List Nat :=
  utf8LossyF bs.length bs

/-- Embedding of the device-name decoding actually performed by objects.rs
lines 669-674: always decode lossily and strip every replacement scalar. -/
def decodeDeviceName (bs : List Nat) : List Nat :=
  (utf8Lossy bs).filter (fun cp => cp != 0xFFFD)

/-- Modelled from the spec (section 4.1): first attempt a strict text decode
of the raw device-name bytes; only on failure fall back to the lossy decode
with replacement scalars stripped. -/
def decodeDeviceNameSpec (bs : List Nat) : List Nat :=
  match utf8Strict bs with
  | some s => s
  | none => (utf8Lossy bs).filter (fun cp => cp != 0xFFFD)

/-! ## GATT attribute objects and the discovery tree builder -/

/-- Host-side `BluetoothGattDescriptor` as read through JNI: only `getUuid`. -/
structure JGattDescriptor where
  uuid : Uuid
deriving DecidableEq, Repr

/-- Host-side `BluetoothGattCharacteristic` as read through JNI: `getUuid`,
`getProperties` (a `jint`), `getValue` (used by the notification stream) and
`getDescriptors`. -/
structure JGattCharacteristic where
  uuid : Uuid
  properties : Int
  value : List Nat
  descriptors : List JGattDescriptor
deriving DecidableEq, Repr

/-- Host-side `BluetoothGattService` as read through JNI. `primaryFlag` is
what the host object would report as its primary flag; the embedded accessor
`is_primary` below never reads it. -/
structure JGattService where
  uuid : Uuid
  primaryFlag : Bool
  characteristics : List JGattCharacteristic
deriving DecidableEq, Repr

/-- Embedding of `JBluetoothGattService::is_primary` (objects.rs lines
331-343): the JNI call is commented out and the accessor returns `Ok(true)`
unconditionally. -/
def JGattService.is_primary (_ : JGattService) : Bool :=
  true

/-- Embedding of `CharPropFlags::from_bits_truncate(flags as u8)`: the low
eight bits of the `jint`, as a natural number (all eight flag bits are
defined, so `from_bits_truncate` keeps the whole byte). -/
def charPropFlags (flags : Int) : Nat :=
  (flags % 256).toNat

/-- Domain `Descriptor` (btleplug api). -/
structure Descriptor where
  uuid : Uuid
  service_uuid : Uuid
  characteristic_uuid : Uuid
deriving DecidableEq, Repr

/-- Domain `Characteristic` (btleplug api). Its uniqueness key is the pair
(service UUID, UUID) (spec section 3). -/
structure Characteristic where
  service_uuid : Uuid
  uuid : Uuid
  properties : Nat
  descriptors : List Descriptor
deriving DecidableEq, Repr

/-- Domain `Service` (btleplug api). -/
structure Service where
  uuid : Uuid
  primary : Bool
  characteristics : List Characteristic
deriving DecidableEq, Repr

/-- The per-characteristic duplicate test of discover_services
(peripheral.rs line 404): same owning service UUID and same UUID. -/
def samePair (a b : Characteristic) : Bool :=
  a.service_uuid == b.service_uuid && a.uuid == b.uuid

/-- Insertion into the descriptor set: `BTreeSet<Descriptor>` keeps a single
copy of structurally equal elements. -/
def insertDescriptor (s : List Descriptor) (d : Descriptor) : List Descriptor :=
  if d ∈ s then s else s ++ [d]

/-- Embedding of the descriptor loop of discover_services (peripheral.rs
lines 386-393). -/
def buildDescriptors (su cu : Uuid) (ds : List JGattDescriptor) : List Descriptor :=
  ds.foldl (fun acc d => insertDescriptor acc ⟨d.uuid, su, cu⟩) []

/-- Embedding of the `Characteristic` construction of discover_services
(peripheral.rs lines 394-399). -/
def mkCharacteristic (su : Uuid) (jc : JGattCharacteristic) : Characteristic :=
  { service_uuid := su
    uuid := jc.uuid
    properties := charPropFlags jc.properties
    descriptors := buildDescriptors su jc.uuid jc.descriptors }

/-- Modelled from the spec (section 3): insertion into a characteristic set
keyed by the uniqueness key (service UUID, UUID); inserting an element whose
key is already present keeps the existing element (`BTreeSet::insert` does not
replace). This is also exactly the guarded insert the discover_services loop
performs on its per-service set. -/
def insertCharSet (s : List Characteristic) (c : Characteristic) : List Characteristic :=
  if s.countP (fun x => samePair x c) = 0 then s ++ [c] else s

/-- Characteristic set built from a list by repeated first-wins insertion
(`BTreeSet::from_iter`). -/
def charSetOfList (l : List Characteristic) : List Characteristic :=
  l.foldl insertCharSet []

/-- One step of the per-service characteristic loop of discover_services
(peripheral.rs lines 385-411): build the characteristic, and only when the
per-service set has no entry with the same (service UUID, UUID) pair, insert
it there and push it onto the flattened list. -/
def serviceCharStep (su : Uuid) (acc : List Characteristic × List Characteristic)
    (jc : JGattCharacteristic) : List Characteristic × List Characteristic :=
  let char := mkCharacteristic su jc
  if acc.1.countP (fun c => samePair c char) = 0 then (acc.1 ++ [char], acc.2 ++ [char])
  else acc

/-- The per-service characteristic loop: returns the per-service
characteristic set and the characteristics pushed onto the peripheral-wide
list, in order. -/
def buildServiceChars (su : Uuid) (jcs : List JGattCharacteristic) :
    List Characteristic × List Characteristic :=
  jcs.foldl (serviceCharStep su) ([], [])

/-- Embedding of the service loop of discover_services (peripheral.rs lines
381-417): accumulate the `peripheral_services` and
`peripheral_characteristics` vectors. -/
def discoverBuild (input : List JGattService) : List Service × List Characteristic :=
  input.foldl
    (fun acc js =>
      (acc.1 ++ [{ uuid := js.uuid
                   primary := js.is_primary
                   characteristics := (buildServiceChars js.uuid js.characteristics).1 }],
       acc.2 ++ (buildServiceChars js.uuid js.characteristics).2))
    ([], [])

/-- Service-set insertion (`BTreeSet<Service>`): keep a single copy of equal
elements, first one wins. -/
def insertServiceSet (s : List Service) (v : Service) : List Service :=
  if v ∈ s then s else s ++ [v]

/-- Service set built from a list (`BTreeSet::from_iter`). -/
def serviceSetOfList (l : List Service) : List Service :=
  l.foldl insertServiceSet []

/-- Embedding of the final commit of discover_services (peripheral.rs lines
418-421): the session state's service and characteristic sets are replaced by
sets built from the freshly accumulated vectors. -/
def discoverCommit (input : List JGattService) : List Service × List Characteristic :=
  (serviceSetOfList (discoverBuild input).1, charSetOfList (discoverBuild input).2)

/-- Every characteristic of the traversal, in traversal order: services in
input order, characteristics in per-service order, each built exactly as
discover_services builds it. -/
def traversalChars (input : List JGattService) : List Characteristic :=
  (input.map (fun js => js.characteristics.map (mkCharacteristic js.uuid))).flatten

/-- Membership test for the uniqueness key a claim fixes. -/
def keyPred (su cu : Uuid) (c : Characteristic) : Bool :=
  c.service_uuid == su && c.uuid == cu

/-! ## Peripheral session: availability gating and operation skeletons -/

/-- Embedding of `PeripheralId`: a newtype over the device address. -/
structure PeripheralId where
  addr : BDAddr
deriving DecidableEq, Repr

/-- Modelled from the spec (sections 3 and 9): the owning adapter's
live-peripheral registry, a lookup-by-id collection (`AdapterManager` lives
outside the covered sources; only its `peripheral(&id)` lookup is used). -/
structure AdapterManager where
  tracked : List BDAddr

/-- Registry lookup: `manager.peripheral(&id)`, `some` exactly when the id is
still tracked. -/
def AdapterManager.peripheral (m : AdapterManager) (id : PeripheralId) : Option BDAddr :=
  m.tracked.find? (fun a => a == id.addr)

/-- Embedding of the `Peripheral` session object: its address and the weak
back-reference to the owning adapter (`adapter = none` models a dead weak
reference, i.e. `Weak::upgrade` returning `None`). The JNI proxy object and
the shared snapshot are not needed for the gating contract. -/
structure Peripheral where
  addr : BDAddr
  adapter : Option AdapterManager

/-- Embedding of `Peripheral::ensure_available` (peripheral.rs lines
280-288). -/
def Peripheral.ensure_available (p : Peripheral) : Except Error Unit :=
  match p.adapter with
  | none => .error .DeviceNotFound
  | some manager =>
    if (manager.peripheral ⟨p.addr⟩).isSome then .ok () else .error .DeviceNotFound

/-- Liveness of a peripheral: its adapter is alive and still tracks it. -/
def Peripheral.tracked (p : Peripheral) : Bool :=
  match p.adapter with
  | none => false
  | some manager => (manager.peripheral ⟨p.addr⟩).isSome

/-- The host calls a session operation can issue on the JNI proxy object. -/
inductive HostCall where
  | connect
  | disconnect
  | isConnected
  | getMtu
  | discoverServices
  | read (uuid : Uuid)
  | write (uuid : Uuid) (data : List Nat) (writeType : Int)
  | setCharacteristicNotification (uuid : Uuid) (enable : Bool)
  | getNotifications
  | readDescriptor (characteristicUuid descriptorUuid : Uuid)
  | writeDescriptor (characteristicUuid descriptorUuid : Uuid) (data : List Nat)
deriving DecidableEq, Repr

/-- Outcome of awaiting one bridged host future, as observed when the poll
result is materialized. -/
inductive FutureOutcome (α : Type) where
  | success (a : α)
  | failed (cause : JCause)
  | unbridged

/-- Embedding of the bridged-future result path (`check_pending_exception`,
`poll_result_from_future`, `get_poll_result`): a success yields the value; a
`FutureException` is classified through `map_future_exception`, whose
re-thrown case surfaces as the unclassified `JavaException` fault; any other
pending throwable also surfaces as `JavaException`. -/
def bridgeResult {α : Type} : FutureOutcome α → Except Error α
  | .success a => .ok a
  | .failed c =>
    match map_future_exception c with
    | .classified e => .error e
    | .rethrown => .error .JavaException
  | .unbridged => .error .JavaException

/-- Embedding of `Peripheral::connect`: gate on availability, then issue the
bridged `connect` host call. -/
def connectOp (p : Peripheral) (h : FutureOutcome Unit) :
    Except Error Unit × List HostCall :=
  match p.ensure_available with
  | .error e => (.error e, [])
  | .ok _ => (bridgeResult h, [.connect])

/-- Embedding of `Peripheral::disconnect`. -/
def disconnectOp (p : Peripheral) (h : FutureOutcome Unit) :
    Except Error Unit × List HostCall :=
  match p.ensure_available with
  | .error e => (.error e, [])
  | .ok _ => (bridgeResult h, [.disconnect])

/-- Embedding of `Peripheral::is_connected`: gate, then the direct boolean
host query. -/
def isConnectedOp (p : Peripheral) (h : Bool) :
    Except Error Bool × List HostCall :=
  match p.ensure_available with
  | .error e => (.error e, [])
  | .ok _ => (.ok h, [.isConnected])

/-- What the host's `getMtu` call does: return a `jint`, throw the
`NotConnectedException` that `try_block` catches, or throw something else. -/
inductive MtuHostOutcome where
  | value (v : Int)
  | notConnectedThrown
  | otherThrown

/-- Embedding of `Peripheral::mtu` (peripheral.rs lines 323-341): gate, query
`getMtu` under a `try_block` catching `NotConnectedException` into
`Error::NotConnected`, then narrow the `jint` with `u16::try_from`, reporting
failure as `Error::Other("MTU conversion failed")`. -/
def mtuOp (p : Peripheral) (h : MtuHostOutcome) :
    Except Error Int × List HostCall :=
  match p.ensure_available with
  | .error e => (.error e, [])
  | .ok _ =>
    (match h with
     | .value v =>
       if 0 ≤ v ∧ v ≤ 65535 then .ok v else .error (.Other "MTU conversion failed")
     | .notConnectedThrown => .error .NotConnected
     | .otherThrown => .error .JavaException,
     [.getMtu])

/-- Embedding of `Peripheral::discover_services`: gate, issue the bridged
discovery future, then build and commit the attribute sets. The committed
session state is returned in the success value. -/
def discoverServicesOp (p : Peripheral) (h : FutureOutcome (List JGattService)) :
    Except Error (List Service × List Characteristic) × List HostCall :=
  match p.ensure_available with
  | .error e => (.error e, [])
  | .ok _ =>
    (match bridgeResult h with
     | .error e => .error e
     | .ok input => .ok (discoverCommit input),
     [.discoverServices])

/-- Embedding of `Peripheral::read`. -/
def readOp (p : Peripheral) (cu : Uuid) (h : FutureOutcome (List Nat)) :
    Except Error (List Nat) × List HostCall :=
  match p.ensure_available with
  | .error e => (.error e, [])
  | .ok _ => (bridgeResult h, [.read cu])

/-- The two write types and their mapping to the host's numeric write modes
(peripheral.rs lines 435-438). -/
inductive WriteType where
  | withResponse
  | withoutResponse
deriving DecidableEq, Repr

/-- Numeric write mode passed to the host `write` call. -/
def writeTypeCode : WriteType → Int
  | .withResponse => 2
  | .withoutResponse => 1

/-- Embedding of `Peripheral::write`. -/
def writeOp (p : Peripheral) (cu : Uuid) (data : List Nat) (wt : WriteType)
    (h : FutureOutcome Unit) : Except Error Unit × List HostCall :=
  match p.ensure_available with
  | .error e => (.error e, [])
  | .ok _ => (bridgeResult h, [.write cu data (writeTypeCode wt)])

/-- Embedding of `Peripheral::set_characteristic_notification` (peripheral.rs
lines 264-278): gate, then issue the bridged host call with the enable flag. -/
def setCharacteristicNotificationOp (p : Peripheral) (cu : Uuid) (enable : Bool)
    (h : FutureOutcome Unit) : Except Error Unit × List HostCall :=
  match p.ensure_available with
  | .error e => (.error e, [])
  | .ok _ => (bridgeResult h, [.setCharacteristicNotification cu enable])

/-- Embedding of `Peripheral::subscribe`: gate, then delegate to
`set_characteristic_notification` with `enable = true` (which gates again). -/
def subscribeOp (p : Peripheral) (cu : Uuid) (h : FutureOutcome Unit) :
    Except Error Unit × List HostCall :=
  match p.ensure_available with
  | .error e => (.error e, [])
  | .ok _ => setCharacteristicNotificationOp p cu true h

/-- Embedding of `Peripheral::unsubscribe`: as `subscribe` with
`enable = false`. -/
def unsubscribeOp (p : Peripheral) (cu : Uuid) (h : FutureOutcome Unit) :
    Except Error Unit × List HostCall :=
  match p.ensure_available with
  | .error e => (.error e, [])
  | .ok _ => setCharacteristicNotificationOp p cu false h

/-- Embedding of `Peripheral::read_descriptor`. -/
def readDescriptorOp (p : Peripheral) (cu du : Uuid) (h : FutureOutcome (List Nat)) :
    Except Error (List Nat) × List HostCall :=
  match p.ensure_available with
  | .error e => (.error e, [])
  | .ok _ => (bridgeResult h, [.readDescriptor cu du])

/-- Embedding of `Peripheral::write_descriptor`. -/
def writeDescriptorOp (p : Peripheral) (cu du : Uuid) (data : List Nat)
    (h : FutureOutcome Unit) : Except Error Unit × List HostCall :=
  match p.ensure_available with
  | .error e => (.error e, [])
  | .ok _ => (bridgeResult h, [.writeDescriptor cu du data])

/-- Domain `ValueNotification`. -/
structure ValueNotification where
  uuid : Uuid
  value : List Nat
deriving DecidableEq, Repr

/-- One item of the host notification stream: a characteristic object, or an
error item (which the stream adapter drops). -/
inductive StreamItem where
  | item (c : JGattCharacteristic)
  | failed

/-- Embedding of `Peripheral::notifications` (peripheral.rs lines 473-490):
no availability gate is performed; the `getNotifications` host call is issued
unconditionally, and each stream item is mapped to a `ValueNotification`, with
error items dropped by `filter_map`. -/
def notificationsOp (_p : Peripheral) (items : List StreamItem) :
    Except Error (List ValueNotification) × List HostCall :=
  (.ok (items.filterMap
      (fun it =>
        match it with
        | .item c => some ⟨c.uuid, c.value⟩
        | .failed => none)),
   [.getNotifications])

/-! ## Theorems -/

/-- C2: every bridged completion fault carrying a cause is classified by
testing the cause against the ordered list NotConnected, PermissionDenied,
UnexpectedCallback, UnexpectedCharacteristic, NoSuchCharacteristic, the first
match winning one-to-one; a generic runtime fault not in the list becomes
`RuntimeError` with the cause's message text; a cause matching none of these
is re-raised to the host runtime unmodified. -/
theorem c2_exception_classifier (c : JCause) :
    map_future_exception c = classifyCauseSpec c := by
  unfold map_future_exception classifyCauseSpec hostExceptionOrder
  cases h1 : c.isInstanceOf .notConnectedException <;>
    cases h2 : c.isInstanceOf .permissionDeniedException <;>
      cases h3 : c.isInstanceOf .unexpectedCallbackException <;>
        cases h4 : c.isInstanceOf .unexpectedCharacteristicException <;>
          cases h5 : c.isInstanceOf .noSuchCharacteristicException <;>
            simp [List.find?, h1, h2, h3, h4, h5]

/-- C3 (code bug): the AD decoding loop does not complete successfully on
every malformed buffer. A type-0xFF record whose declared length is 1 or 2
makes the Rust loop panic: `[0x01, 0xFF]` and `[0x02, 0xFF, 0x00]` index
`raw_bytes` out of bounds while reading the company id, and
`[0x02, 0xFF, 0x00, 0x09]` slices with reversed bounds
(`raw_bytes[4..3]`). In the embedding each panic is the `none` result. -/
theorem c3_short_mfr_record_panics :
    decodeAdBytes [1, 255] = none ∧ decodeAdBytes [2, 255, 0] = none ∧
      decodeAdBytes [2, 255, 0, 9] = none := by decide

/-- C7 (code bug): device-name decoding never attempts a strict decode; it
always decodes lossily and strips every replacement scalar, so the valid
UTF-8 input `[0xEF, 0xBF, 0xBD]` (the encoding of U+FFFD itself) strict-decodes
to `[0xFFFD]` but the code produces the empty name instead of returning the
valid text unchanged. -/
theorem c7_device_name_strict_first_missing :
    utf8Strict [0xEF, 0xBF, 0xBD] = some [0xFFFD] ∧
      decodeDeviceNameSpec [0xEF, 0xBF, 0xBD] = [0xFFFD] ∧
      decodeDeviceName [0xEF, 0xBF, 0xBD] = [] := by decide

/-- C8: the decoded tx-power level is absent exactly for the sentinel raw
value 127, and any other raw value decodes to `some` of its 16-bit signed
narrowing (a value in [-32768, 32767] congruent to the raw value modulo
65536); in particular raw -59 decodes to `some (-59)`. -/
theorem c8_tx_power_sentinel :
    (∀ v : Int, decodeTxPowerLevel v = none ↔ v = 127) ∧
    (∀ v : Int, v ≠ 127 →
      ∃ w, decodeTxPowerLevel v = some w ∧ -32768 ≤ w ∧ w ≤ 32767 ∧
        (v - w) % 65536 = 0) ∧
    decodeTxPowerLevel (-59) = some (-59) ∧ decodeTxPowerLevel 127 = none := by
  refine ⟨?_, ?_, by decide, by decide⟩
  · intro v
    unfold decodeTxPowerLevel
    split <;> simp [*]
  · intro v hv
    refine ⟨toI16 v, by simp [decodeTxPowerLevel, hv], ?_, ?_, ?_⟩ <;>
      · unfold toI16
        split <;> omega

/-- Witness for C8 at the concrete raw value -59. -/
theorem c8_tx_power_sentinel_witness :
    ∃ w, decodeTxPowerLevel (-59) = some w ∧ -32768 ≤ w ∧ w ≤ 32767 ∧
      ((-59 : Int) - w) % 65536 = 0 :=
  c8_tx_power_sentinel.2.1 (-59) (by decide)

/-- Availability check restated through the liveness predicate. -/
theorem ensure_available_eq (p : Peripheral) :
    p.ensure_available = (if p.tracked then .ok () else .error .DeviceNotFound) := by
  unfold Peripheral.ensure_available Peripheral.tracked
  cases p.adapter <;> simp

/-- C1 (amended): every session operation that issues a host call except
`notifications` - connect, disconnect, is_connected, mtu, discover_services,
read, write, subscribe, unsubscribe, read_descriptor, write_descriptor -
fails immediately with `DeviceNotFound` and performs no host call when the
owning adapter's registry is gone or no longer tracks the peripheral. -/
theorem c1_availability_gating (p : Peripheral) (hp : p.tracked = false) :
    (∀ h, connectOp p h = (.error .DeviceNotFound, [])) ∧
    (∀ h, disconnectOp p h = (.error .DeviceNotFound, [])) ∧
    (∀ b, isConnectedOp p b = (.error .DeviceNotFound, [])) ∧
    (∀ h, mtuOp p h = (.error .DeviceNotFound, [])) ∧
    (∀ h, discoverServicesOp p h = (.error .DeviceNotFound, [])) ∧
    (∀ cu h, readOp p cu h = (.error .DeviceNotFound, [])) ∧
    (∀ cu data wt h, writeOp p cu data wt h = (.error .DeviceNotFound, [])) ∧
    (∀ cu h, subscribeOp p cu h = (.error .DeviceNotFound, [])) ∧
    (∀ cu h, unsubscribeOp p cu h = (.error .DeviceNotFound, [])) ∧
    (∀ cu du h, readDescriptorOp p cu du h = (.error .DeviceNotFound, [])) ∧
    (∀ cu du data h, writeDescriptorOp p cu du data h = (.error .DeviceNotFound, [])) := by
  have he : p.ensure_available = .error .DeviceNotFound := by
    simp [ensure_available_eq, hp]
  refine ⟨fun h => ?_, fun h => ?_, fun b => ?_, fun h => ?_, fun h => ?_,
    fun cu h => ?_, fun cu data wt h => ?_, fun cu h => ?_, fun cu h => ?_,
    fun cu du h => ?_, fun cu du data h => ?_⟩ <;>
    simp [connectOp, disconnectOp, isConnectedOp, mtuOp, discoverServicesOp, readOp,
      writeOp, subscribeOp, unsubscribeOp, readDescriptorOp, writeDescriptorOp, he]

/-- Witness for C1 (amended) on a peripheral whose adapter is gone. -/
theorem c1_availability_gating_witness :
    Peripheral.tracked ⟨0, none⟩ = false ∧
      connectOp ⟨0, none⟩ (.success ()) = (.error .DeviceNotFound, []) ∧
      mtuOp ⟨0, none⟩ .notConnectedThrown = (.error .DeviceNotFound, []) :=
  ⟨rfl, (c1_availability_gating ⟨0, none⟩ rfl).1 (.success ()),
    (c1_availability_gating ⟨0, none⟩ rfl).2.2.2.1 .notConnectedThrown⟩

/-- Counterexample for C1 as stated: `notifications` is a session operation
that issues a host call, yet on a peripheral whose adapter is gone it still
issues the `getNotifications` host call and does not fail with
`DeviceNotFound`. -/
theorem c1_notifications_counterexample :
    Peripheral.tracked ⟨0, none⟩ = false ∧
      (notificationsOp ⟨0, none⟩ []).2 = [HostCall.getNotifications] ∧
      (notificationsOp ⟨0, none⟩ []).1 = .ok [] ∧
      (notificationsOp ⟨0, none⟩ []).1 ≠ .error .DeviceNotFound := by
  refine ⟨rfl, rfl, rfl, ?_⟩
  simp [notificationsOp]

/-- C9: on an available peripheral, `mtu` maps a host-side
not-connected throw to `NotConnected`, reports an out-of-range host integer
as the narrowing fault `Other "MTU conversion failed"` instead of a value,
and returns an in-range integer as the value. -/
theorem c9_mtu_contract (p : Peripheral) (hp : p.tracked = true) :
    mtuOp p .notConnectedThrown = (.error .NotConnected, [.getMtu]) ∧
    (∀ v : Int, v < 0 ∨ 65535 < v →
      mtuOp p (.value v) = (.error (.Other "MTU conversion failed"), [.getMtu])) ∧
    (∀ v : Int, 0 ≤ v → v ≤ 65535 → mtuOp p (.value v) = (.ok v, [.getMtu])) := by
  have he : p.ensure_available = .ok () := by simp [ensure_available_eq, hp]
  refine ⟨by simp [mtuOp, he], ?_, ?_⟩
  · intro v hv
    have hno : ¬ (0 ≤ v ∧ v ≤ 65535) := by omega
    simp [mtuOp, he, hno]
  · intro v h0 h1
    simp [mtuOp, he, h0, h1]

/-- Witness for C9 on a tracked peripheral, with the not-connected throw and
the out-of-range MTU 65536. -/
theorem c9_mtu_contract_witness :
    Peripheral.tracked ⟨5, some ⟨[5]⟩⟩ = true ∧
      mtuOp ⟨5, some ⟨[5]⟩⟩ .notConnectedThrown = (.error .NotConnected, [.getMtu]) ∧
      mtuOp ⟨5, some ⟨[5]⟩⟩ (.value 65536) =
        (.error (.Other "MTU conversion failed"), [.getMtu]) :=
  ⟨rfl, (c9_mtu_contract ⟨5, some ⟨[5]⟩⟩ rfl).1,
    (c9_mtu_contract ⟨5, some ⟨[5]⟩⟩ rfl).2.1 65536 (by omega)⟩

/-- Combining with an empty contribution changes nothing. -/
theorem mfrCombine_none_right (o : Option (List Nat)) : mfrCombine o none = o := by
  cases o <;> rfl

/-- Payload combination is associative. -/
theorem mfrCombine_assoc (a b c : Option (List Nat)) :
    mfrCombine (mfrCombine a b) c = mfrCombine a (mfrCombine b c) := by
  cases a <;> cases b <;> cases c <;> simp [mfrCombine]

/-- Lookup after `mfrInsert`: the inserted payload is appended to the entry of
its key; other keys are untouched. -/
theorem mfrLookup_insert (m : MfrMap) (k c : Nat) (d : List Nat) :
    mfrLookup (mfrInsert m k d) c =
      if k = c then mfrCombine (mfrLookup m c) (some d) else mfrLookup m c := by
  induction m with
  | nil =>
    by_cases h : k = c <;> simp [mfrInsert, mfrLookup, h, mfrCombine]
  | cons kv rest ih =>
    obtain ⟨k0, v0⟩ := kv
    by_cases h0 : k0 = k
    · subst h0
      by_cases h : k0 = c
      · subst h
        simp [mfrInsert, mfrLookup, mfrCombine]
      · simp [mfrInsert, mfrLookup, h]
    · by_cases h : k0 = c
      · subst h
        have hkc : ¬ k = k0 := by omega
        simp [mfrInsert, mfrLookup, h0, hkc]
      · simp [mfrInsert, mfrLookup, h0, h, ih]

/-- Relation between the AD loop and its ghost record extraction: when the
loop completes, the record extraction completes too, and the final map
extends the initial map by each company id's encounter-order payload
concatenation. -/
theorem adLoopF_records (fuel : Nat) :
    ∀ (bs : List Nat) (index : Nat) (m m' : MfrMap),
      adLoopF fuel bs index m = some m' →
      ∃ rs, adRecF fuel bs index = some rs ∧
        ∀ c, mfrLookup m' c = mfrCombine (mfrLookup m c) (recContribution rs c) := by
  induction fuel with
  | zero =>
    intro bs index m m' h
    simp [adLoopF] at h
  | succ n ih =>
    intro bs index m m' h
    simp only [adLoopF, List.getD_eq_getElem?_getD] at h
    by_cases hA : bs.length ≤ index
    · simp only [if_pos hA, Option.some.injEq] at h
      subst h
      exact ⟨[], by simp only [adRecF, if_pos hA],
        fun c => by simp [recContribution, mfrCombine_none_right]⟩
    · simp only [if_neg hA] at h
      by_cases h0 : bs[index]?.getD 0 = 0
      · simp only [if_pos h0, Option.some.injEq] at h
        subst h
        exact ⟨[], by simp only [adRecF, List.getD_eq_getElem?_getD, if_neg hA, if_pos h0],
          fun c => by simp [recContribution, mfrCombine_none_right]⟩
      · simp only [if_neg h0] at h
        by_cases h1 : bs.length ≤ index + bs[index]?.getD 0
        · simp only [if_pos h1, Option.some.injEq] at h
          subst h
          exact ⟨[], by simp only [adRecF, List.getD_eq_getElem?_getD, if_neg hA,
              if_neg h0, if_pos h1],
            fun c => by simp [recContribution, mfrCombine_none_right]⟩
        · simp only [if_neg h1] at h
          cases hT : bs[index + 1]? with
          | none => simp only [hT] at h; exact Option.noConfusion h
          | some adType =>
            simp only [hT] at h
            by_cases hAd : adType = 255
            · simp only [if_pos hAd] at h
              cases hB2 : bs[index + 2]? with
              | none => simp only [hB2] at h; exact Option.noConfusion h
              | some b2 =>
                cases hB3 : bs[index + 3]? with
                | none => simp only [hB2, hB3] at h; exact Option.noConfusion h
                | some b3 =>
                  simp only [hB2, hB3] at h
                  by_cases hDE : index + 1 + bs[index]?.getD 0 ≤ bs.length
                  · simp only [if_pos hDE] at h
                    cases hS : listSlice bs (index + 4) (index + 1 + bs[index]?.getD 0) with
                    | none => simp only [hS] at h; exact Option.noConfusion h
                    | some data =>
                      simp only [hS] at h
                      obtain ⟨rs, hrs, hlook⟩ := ih bs (index + bs[index]?.getD 0 + 1) _ m' h
                      refine ⟨((b3 <<< 8) ||| b2, data) :: rs, ?_, fun c => ?_⟩
                      · simp only [adRecF, List.getD_eq_getElem?_getD, if_neg hA, if_neg h0,
                          if_neg h1, hT, if_pos hAd, hB2, hB3, if_pos hDE, hS, hrs,
                          Option.map_some']
                      · rw [hlook c, mfrLookup_insert]
                        by_cases hc : ((b3 <<< 8) ||| b2) = c
                        · rw [if_pos hc]
                          simp only [recContribution, if_pos hc]
                          exact mfrCombine_assoc _ _ _
                        · rw [if_neg hc]
                          simp only [recContribution, if_neg hc]
                  · simp only [if_neg hDE] at h
                    obtain ⟨rs, hrs, hlook⟩ := ih bs (index + bs[index]?.getD 0 + 1) m m' h
                    refine ⟨rs, ?_, hlook⟩
                    simp only [adRecF, List.getD_eq_getElem?_getD, if_neg hA, if_neg h0,
                      if_neg h1, hT, if_pos hAd, hB2, hB3, if_neg hDE, hrs]
            · simp only [if_neg hAd] at h
              obtain ⟨rs, hrs, hlook⟩ := ih bs (index + bs[index]?.getD 0 + 1) m m' h
              refine ⟨rs, ?_, hlook⟩
              simp only [adRecF, List.getD_eq_getElem?_getD, if_neg hA, if_neg h0,
                if_neg h1, hT, if_neg hAd, hrs]

/-- C5: whenever the manufacturer-data decode of a raw buffer completes, the
decoded map sends each company id to the concatenation, in encounter order, of
the payloads of that id's records (and has no entry for an id with no
record); in particular two records for company id 0x004C with payloads
[0xAA] then [0xBB] decode to the single accumulated payload [0xAA, 0xBB]. -/
theorem c5_manufacturer_concat :
    (∀ bs m, decodeAdBytes bs = some m →
      ∃ rs, adRecordsBytes bs = some rs ∧ ∀ c, mfrLookup m c = recContribution rs c) ∧
    decodeAdBytes [4, 255, 76, 0, 170, 4, 255, 76, 0, 187] = some [(76, [170, 187])] := by
  constructor
  · intro bs m h
    obtain ⟨rs, hrs, hlook⟩ := adLoopF_records (bs.length + 1) bs 0 [] m h
    exact ⟨rs, hrs, fun c => hlook c⟩
  · decide

/-- Witness for C5 on the concrete split-record buffer. -/
theorem c5_manufacturer_concat_witness :
    ∃ rs, adRecordsBytes [4, 255, 76, 0, 170, 4, 255, 76, 0, 187] = some rs ∧
      ∀ c, mfrLookup [(76, [170, 187])] c = recContribution rs c :=
  c5_manufacturer_concat.1 [4, 255, 76, 0, 170, 4, 255, 76, 0, 187]
    [(76, [170, 187])] (by decide)

/-- Bitwise-or of a shifted high byte and a low byte below 256 is plain
place-value addition; this is the little-endian company id computation. -/
theorem lor_byte (hi lo : Nat) (h : lo < 256) : (hi <<< 8) ||| lo = hi * 256 + lo := by
  have h2 : lo < 2 ^ 8 := h
  apply Nat.eq_of_testBit_eq
  intro i
  rw [Nat.testBit_lor, Nat.shiftLeft_eq,
    show hi * 2 ^ 8 = 2 ^ 8 * hi from Nat.mul_comm _ _]
  rw [show hi * 256 + lo = 2 ^ 8 * hi + lo from by ring]
  rw [Nat.testBit_mul_pow_two_add hi h2, Nat.testBit_mul_pow_two]
  by_cases hlt : i < 8
  · have hge : ¬ i ≥ 8 := by omega
    simp [hlt, hge]
  · have hbit : lo.testBit i = false :=
      Nat.testBit_lt_two_pow (Nat.lt_of_lt_of_le h2 (Nat.pow_le_pow_right (by omega) (by omega)))
    have hge : i ≥ 8 := by omega
    simp [hlt, hge, hbit]

/-- The AD loop yields the current map as soon as the index leaves the
buffer. -/
theorem adLoopF_done (fuel : Nat) (bs : List Nat) (index : Nat) (m : MfrMap)
    (hf : 0 < fuel) (hidx : bs.length ≤ index) : adLoopF fuel bs index m = some m := by
  cases fuel with
  | zero => omega
  | succ n => simp only [adLoopF, if_pos hidx]

/-- One full iteration of the AD loop over an in-bounds type-0xFF record:
the record's company id and payload are inserted and the loop continues past
the record. -/
theorem adLoopF_step_mfr (fuel : Nat) (bs : List Nat) (index : Nat) (m : MfrMap)
    (L b2 b3 : Nat) (data : List Nat)
    (hidx : ¬ bs.length ≤ index)
    (hlen : bs.getD index 0 = L)
    (h0 : ¬ L = 0)
    (h1 : ¬ bs.length ≤ index + L)
    (hT : bs[index + 1]? = some 255)
    (hB2 : bs[index + 2]? = some b2)
    (hB3 : bs[index + 3]? = some b3)
    (hDE : index + 1 + L ≤ bs.length)
    (hS : listSlice bs (index + 4) (index + 1 + L) = some data) :
    adLoopF (fuel + 1) bs index m =
      adLoopF fuel bs (index + L + 1) (mfrInsert m ((b3 <<< 8) ||| b2) data) := by
  simp only [adLoopF, hlen, if_neg hidx, if_neg h0, if_neg h1, hT, hB2, hB3,
    if_pos hDE, hS]
  simp

/-- C6: a manufacturer-specific (type 0xFF) AD record with at least two
payload bytes decodes its first two payload bytes as a little-endian 16-bit
company id and the remaining bytes as the manufacturer payload; in particular
the buffer [0x04, 0xFF, 0x4C, 0x00, 0x02, 0x00] decodes to
the map sending 0x004C to [0x02]. -/
theorem c6_manufacturer_record :
    (∀ (lo hi : Nat) (payload : List Nat), lo ≤ 255 → hi ≤ 255 → payload.length ≤ 252 →
      decodeAdBytes ((payload.length + 3) :: 255 :: lo :: hi :: payload) =
        some [(hi * 256 + lo, payload)]) ∧
    decodeAdBytes [4, 255, 76, 0, 2, 0] = some [(76, [2])] := by
  refine ⟨?_, by decide⟩
  intro lo hi payload hlo hhi hlen
  have hcomp : (hi <<< 8) ||| lo = hi * 256 + lo := lor_byte hi lo (by omega)
  set bs := (payload.length + 3) :: 255 :: lo :: hi :: payload with hbs
  have hL : bs.length = payload.length + 4 := rfl
  have e0 : bs.getD 0 0 = payload.length + 3 := rfl
  have e1 : bs[0 + 1]? = some 255 := rfl
  have e2 : bs[0 + 2]? = some lo := rfl
  have e3 : bs[0 + 3]? = some hi := by simp [hbs]
  have edrop : bs.drop (0 + 4) = payload := rfl
  have hS : listSlice bs (0 + 4) (0 + 1 + (payload.length + 3)) = some payload := by
    have hcond : 0 + 4 ≤ 0 + 1 + (payload.length + 3) ∧
        0 + 1 + (payload.length + 3) ≤ bs.length := ⟨by omega, by rw [hL]; omega⟩
    simp only [listSlice]
    rw [if_pos hcond, edrop,
      show 0 + 1 + (payload.length + 3) - (0 + 4) = payload.length from by omega,
      List.take_length]
  unfold decodeAdBytes
  rw [hL]
  rw [adLoopF_step_mfr (payload.length + 4) bs 0 [] (payload.length + 3) lo hi payload
    (by rw [hL]; omega) e0 (by omega) (by rw [hL]; omega) e1 e2 e3
    (by rw [hL]; omega) hS]
  simp only [mfrInsert]
  rw [hcomp]
  exact adLoopF_done _ _ _ _ (by omega) (by rw [hL]; omega)

/-- Witness for C6 at the concrete record 0xFF 0x4C 0x00 0x02. -/
theorem c6_manufacturer_record_witness :
    decodeAdBytes (([(2 : Nat)].length + 3) :: 255 :: 76 :: 0 :: [2]) =
      some [(0 * 256 + 76, [2])] :=
  c6_manufacturer_record.1 76 0 [2] (by decide) (by decide) (by decide)

/-- A characteristic with the fixed uniqueness key turns the duplicate test
into the fixed-key membership test. -/
theorem samePair_keyPred {su cu : Uuid} {c : Characteristic}
    (hc : keyPred su cu c = true) (x : Characteristic) :
    samePair x c = keyPred su cu x := by
  unfold keyPred at hc
  simp only [Bool.and_eq_true, beq_iff_eq] at hc
  unfold samePair keyPred
  rw [hc.1, hc.2]

/-- Keyed insertion and plain append find the same fixed-key element. -/
theorem find?_insertCharSet (su cu : Uuid) (s : List Characteristic) (c : Characteristic) :
    (insertCharSet s c).find? (keyPred su cu) = (s ++ [c]).find? (keyPred su cu) := by
  unfold insertCharSet
  by_cases h : s.countP (fun x => samePair x c) = 0
  · rw [if_pos h]
  · rw [if_neg h, List.find?_append]
    cases hf : s.find? (keyPred su cu) with
    | some x => simp
    | none =>
      have hPc : ¬ keyPred su cu c = true := by
        intro hc
        obtain ⟨x, hx, hsp⟩ : ∃ x ∈ s, (fun x => samePair x c) x = true := by
          by_contra hall
          push_neg at hall
          exact h (List.countP_eq_zero.mpr hall)
        have : keyPred su cu x = true := by rw [← samePair_keyPred hc x]; exact hsp
        have := List.find?_eq_none.mp hf x hx
        exact this ‹keyPred su cu x = true›
      simp [List.find?_cons, Bool.eq_false_iff.mpr hPc]

/-- Folding keyed insertions finds the same fixed-key element as the
accumulated plain list. -/
theorem find?_foldl_insertCharSet (su cu : Uuid) (l : List Characteristic) :
    ∀ acc, (l.foldl insertCharSet acc).find? (keyPred su cu) =
      (acc ++ l).find? (keyPred su cu) := by
  induction l with
  | nil => intro acc; simp
  | cons c rest ih =>
    intro acc
    rw [List.foldl_cons, ih (insertCharSet acc c), List.find?_append, List.find?_append,
      find?_insertCharSet su cu acc c, List.find?_append, Option.or_assoc]
    congr 1
    cases hc : keyPred su cu c <;> simp [List.find?_cons, hc]

/-- Finding in the characteristic set built from a list is finding in the
list. -/
theorem find?_charSetOfList (su cu : Uuid) (l : List Characteristic) :
    (charSetOfList l).find? (keyPred su cu) = l.find? (keyPred su cu) := by
  have := find?_foldl_insertCharSet su cu l []
  simpa [charSetOfList] using this

/-- Folding keyed insertions keeps at most one element per key. -/
theorem filter_foldl_insertCharSet (su cu : Uuid) (l : List Characteristic) :
    ∀ acc, (acc.filter (keyPred su cu)).length ≤ 1 →
      ((l.foldl insertCharSet acc).filter (keyPred su cu)).length ≤ 1 := by
  induction l with
  | nil => intro acc h; simpa using h
  | cons c rest ih =>
    intro acc h
    rw [List.foldl_cons]
    apply ih
    unfold insertCharSet
    by_cases hcnt : acc.countP (fun x => samePair x c) = 0
    · rw [if_pos hcnt, List.filter_append]
      cases hc : keyPred su cu c with
      | false => simpa [List.filter, hc] using h
      | true =>
        have hnil : acc.filter (keyPred su cu) = [] := by
          rw [List.filter_eq_nil_iff]
          intro x hx
          have hno := List.countP_eq_zero.mp hcnt x hx
          rw [samePair_keyPred hc x] at hno
          simpa using hno
        simp [hnil, List.filter, hc]
    · rw [if_neg hcnt]
      exact h

/-- The characteristic set built from any list has at most one element with a
given uniqueness key. -/
theorem filter_charSetOfList (su cu : Uuid) (l : List Characteristic) :
    ((charSetOfList l).filter (keyPred su cu)).length ≤ 1 :=
  filter_foldl_insertCharSet su cu l [] (by simp)

/-- The per-service loop keeps its set and pushed list identical: both are the
keyed first-wins set of the built characteristics. -/
theorem buildServiceChars_eq (su : Uuid) (jcs : List JGattCharacteristic) :
    buildServiceChars su jcs =
      (charSetOfList (jcs.map (mkCharacteristic su)),
       charSetOfList (jcs.map (mkCharacteristic su))) := by
  unfold buildServiceChars charSetOfList
  suffices hgen : ∀ a : List Characteristic,
      jcs.foldl (serviceCharStep su) (a, a) =
        ((jcs.map (mkCharacteristic su)).foldl insertCharSet a,
         (jcs.map (mkCharacteristic su)).foldl insertCharSet a) from hgen []
  induction jcs with
  | nil => intro a; rfl
  | cons jc rest ih =>
    intro a
    have hstep : serviceCharStep su (a, a) jc =
        (insertCharSet a (mkCharacteristic su jc), insertCharSet a (mkCharacteristic su jc)) := by
      unfold serviceCharStep insertCharSet
      by_cases h : a.countP (fun c => samePair c (mkCharacteristic su jc)) = 0 <;> simp [h]
    simp only [List.foldl_cons, List.map_cons, hstep, ih]

/-- The service loop accumulators spelled out: services in input order, and
the pushed characteristics flattened per service. -/
theorem discoverBuild_eq (input : List JGattService) :
    discoverBuild input =
      (input.map (fun js =>
        { uuid := js.uuid
          primary := js.is_primary
          characteristics := (buildServiceChars js.uuid js.characteristics).1 }),
       (input.map (fun js => (buildServiceChars js.uuid js.characteristics).2)).flatten) := by
  unfold discoverBuild
  suffices hgen : ∀ (a : List Service) (b : List Characteristic),
      input.foldl
        (fun acc js =>
          (acc.1 ++ [{ uuid := js.uuid
                       primary := js.is_primary
                       characteristics := (buildServiceChars js.uuid js.characteristics).1 }],
           acc.2 ++ (buildServiceChars js.uuid js.characteristics).2)) (a, b) =
      (a ++ input.map (fun js =>
        { uuid := js.uuid
          primary := js.is_primary
          characteristics := (buildServiceChars js.uuid js.characteristics).1 }),
       b ++ (input.map (fun js => (buildServiceChars js.uuid js.characteristics).2)).flatten) by
    simpa using hgen [] []
  induction input with
  | nil => intro a b; simp
  | cons js rest ih =>
    intro a b
    rw [List.foldl_cons, ih]
    simp

/-- Two flattened per-item lists with itemwise equal finds have equal finds. -/
theorem find?_flatten_congr {α β : Type} (P : β → Bool) (f g : α → List β)
    (input : List α) (h : ∀ js, (f js).find? P = (g js).find? P) :
    ((input.map f).flatten).find? P = ((input.map g).flatten).find? P := by
  induction input with
  | nil => rfl
  | cons js rest ih =>
    simp only [List.map_cons, List.flatten_cons, List.find?_append, h js, ih]

/-- Membership in the service set comes from the underlying list. -/
theorem mem_foldl_insertServiceSet {x : Service} (l : List Service) :
    ∀ acc, x ∈ l.foldl insertServiceSet acc → x ∈ acc ∨ x ∈ l := by
  induction l with
  | nil => intro acc h; exact Or.inl h
  | cons v rest ih =>
    intro acc h
    rcases ih (insertServiceSet acc v) h with h1 | h1
    · unfold insertServiceSet at h1
      by_cases hv : v ∈ acc
      · rw [if_pos hv] at h1
        exact Or.inl h1
      · rw [if_neg hv] at h1
        rcases List.mem_append.mp h1 with h2 | h2
        · exact Or.inl h2
        · simp only [List.mem_singleton] at h2
          subst h2
          exact Or.inr (List.mem_cons_self _ _)
    · exact Or.inr (List.mem_cons_of_mem _ h1)

/-- C4: in every discovery result, the committed flattened characteristic set
holds at most one characteristic per (service UUID, UUID) pair and its element
for a pair is exactly the first characteristic of the traversal with that
pair; every committed per-service set also holds at most one element per
pair; and when the traversal contains at least one characteristic with the
pair (in particular when it contains duplicates), the committed set holds
exactly one. -/
theorem c4_characteristic_dedup (input : List JGattService) (su cu : Uuid) :
    ((discoverCommit input).2.filter (keyPred su cu)).length ≤ 1 ∧
    (discoverCommit input).2.find? (keyPred su cu) =
      (traversalChars input).find? (keyPred su cu) ∧
    ((discoverCommit input).1.all
      (fun sv => decide ((sv.characteristics.filter (keyPred su cu)).length ≤ 1))) = true ∧
    (1 ≤ (traversalChars input).countP (keyPred su cu) →
      ((discoverCommit input).2.filter (keyPred su cu)).length = 1) := by
  have hvec : (discoverBuild input).2 =
      (input.map (fun js => (buildServiceChars js.uuid js.characteristics).2)).flatten := by
    rw [discoverBuild_eq]
  have hsvc : (discoverBuild input).1 = input.map (fun js =>
      { uuid := js.uuid
        primary := js.is_primary
        characteristics := (buildServiceChars js.uuid js.characteristics).1 }) := by
    rw [discoverBuild_eq]
  have h1 : ((discoverCommit input).2.filter (keyPred su cu)).length ≤ 1 :=
    filter_charSetOfList su cu (discoverBuild input).2
  have h2 : (discoverCommit input).2.find? (keyPred su cu) =
      (traversalChars input).find? (keyPred su cu) := by
    show (charSetOfList (discoverBuild input).2).find? (keyPred su cu) = _
    rw [find?_charSetOfList, hvec]
    unfold traversalChars
    apply find?_flatten_congr
    intro js
    rw [buildServiceChars_eq]
    exact find?_charSetOfList su cu _
  refine ⟨h1, h2, ?_, ?_⟩
  · apply List.all_eq_true.mpr
    intro sv hsv
    have hsv' : sv ∈ (discoverBuild input).1.foldl insertServiceSet [] := hsv
    have hmem : sv ∈ (discoverBuild input).1 := by
      rcases mem_foldl_insertServiceSet (discoverBuild input).1 [] hsv' with h | h
      · cases h
      · exact h
    rw [hsvc] at hmem
    obtain ⟨js, _, hjs⟩ := List.mem_map.mp hmem
    rw [← hjs]
    have : (((buildServiceChars js.uuid js.characteristics).1).filter
        (keyPred su cu)).length ≤ 1 := by
      rw [buildServiceChars_eq]
      exact filter_charSetOfList su cu _
    simpa using this
  · intro hcnt
    have hex : ∃ x ∈ traversalChars input, keyPred su cu x = true := by
      by_contra hall
      push_neg at hall
      have h0 : (traversalChars input).countP (keyPred su cu) = 0 :=
        List.countP_eq_zero.mpr (by simpa using hall)
      omega
    obtain ⟨x, hx, hPx⟩ := hex
    have hsome : ((discoverCommit input).2.find? (keyPred su cu)).isSome = true := by
      rw [h2]
      exact List.find?_isSome.mpr ⟨x, hx, hPx⟩
    obtain ⟨y, hy⟩ := Option.isSome_iff_exists.mp hsome
    have hymem : y ∈ (discoverCommit input).2 := List.mem_of_find?_eq_some hy
    have hyP : keyPred su cu y = true := List.find?_some hy
    have hmemf : y ∈ (discoverCommit input).2.filter (keyPred su cu) :=
      List.mem_filter.mpr ⟨hymem, hyP⟩
    have hne : (discoverCommit input).2.filter (keyPred su cu) ≠ [] := by
      intro hnil
      rw [hnil] at hmemf
      cases hmemf
    have hpos := List.length_pos.mpr hne
    omega

/-- Witness for C4 on a discovery result whose single service reports two
characteristics with the same UUID (and different property flags): the
committed flattened set holds exactly one entry for the pair. -/
theorem c4_characteristic_dedup_witness :
    ((discoverCommit [⟨7, false, [⟨9, 5, [], []⟩, ⟨9, 6, [], []⟩]⟩]).2.filter
        (keyPred 7 9)).length = 1 :=
  (c4_characteristic_dedup [⟨7, false, [⟨9, 5, [], []⟩, ⟨9, 6, [], []⟩]⟩] 7 9).2.2.2
    (by decide)

/-- C10: the primary-flag accessor of the host service object is hard-coded
to report true, and consequently every service committed by discover_services
has its primary flag equal to true, whatever the host objects report. -/
theorem c10_service_primary_hardcoded :
    (∀ js : JGattService, js.is_primary = true) ∧
    ∀ input : List JGattService, ((discoverCommit input).1.all (fun s => s.primary)) = true := by
  refine ⟨fun js => rfl, fun input => ?_⟩
  apply List.all_eq_true.mpr
  intro sv hsv
  have hsv' : sv ∈ (discoverBuild input).1.foldl insertServiceSet [] := hsv
  have hmem : sv ∈ (discoverBuild input).1 := by
    rcases mem_foldl_insertServiceSet (discoverBuild input).1 [] hsv' with h | h
    · cases h
    · exact h
  rw [discoverBuild_eq] at hmem
  obtain ⟨js, _, hjs⟩ := List.mem_map.mp hmem
  rw [← hjs]
  rfl

end Droidplug
